import Mathlib

/-!
Verification of the dasny_bs4 scraper (src/utils.py, src/scrap_contents.py,
src/scrap_urls.py) against its natural-language specification.

The development shallowly embeds the Python code: strings are `List Char` /
`String`, HTML documents are a `Node` tree offering the BeautifulSoup queries
the code uses (find first / find all by tag and class or id, get stripped
text), Python runtime values that flow through `temp_pickle` and the
serializers are `PyVal`, and fallible steps return `Except PyErr`.
Character-class predicates (word characters, whitespace, lower-casing) model
the ASCII behaviour of Python's `re` and `str` on the ASCII-plus-en-dash
inputs this program handles.
-/

/-- Embedding of the apostrophe character (written via its code point to keep
the file free of quote-heavy literals). -/
def apos : Char := Char.ofNat 39

/-- Embedding of Python list-style startswith on character lists:
`isPre p l` holds when `p` is an initial segment of `l`. -/
def isPre : List Char → List Char → Bool
  | [], _ => true
  | _ :: _, [] => false
  | a :: as, b :: bs => a == b && isPre as bs

/-- Embedding of Python's `needle in haystack` substring test. -/
def containsSub (nd : List Char) : List Char → Bool
  | [] => nd.isEmpty
  | c :: t => isPre nd (c :: t) || containsSub nd t

/-- Embedding of Python `str.replace(old, new)` for a non-empty `old`:
left-to-right scan replacing non-overlapping occurrences (src/utils.py:64
uses it three times). With `old = []` it is the identity, a case the source
never exercises. -/
def pyReplace (od nw : List Char) (l : List Char) : List Char :=
  if h : isPre od l = true ∧ od ≠ [] then
    nw ++ pyReplace od nw (l.drop od.length)
  else
    match l with
    | [] => []
    | c :: t => c :: pyReplace od nw t
termination_by l.length
decreasing_by
  · have h1 : 1 ≤ od.length := by
      cases od with
      | nil => exact absurd rfl h.2
      | cons x xs => simp
    have h2 : od.length ≤ l.length := by
      clear h1
      have hp := h.1
      clear h
      induction od generalizing l with
      | nil => simp
      | cons a as ih =>
        cases l with
        | nil => simp [isPre] at hp
        | cons b bs =>
          simp only [isPre, Bool.and_eq_true] at hp
          simpa using ih bs hp.2
    simp only [List.length_drop]
    omega
  · simp

/-- Embedding of Python `str.strip()` (whitespace trimming on both ends). -/
def pyStripL (l : List Char) : List Char :=
  ((l.dropWhile Char.isWhitespace).reverse.dropWhile Char.isWhitespace).reverse

/-- String wrapper for `pyStripL`. -/
def pyStrip (s : String) : String := String.mk (pyStripL s.toList)

/-- Embedding of Python `str.split(sep)` for a one-character separator:
splits at every occurrence and keeps empty pieces (src/utils.py:81). -/
def pySplitCh (sep : Char) : List Char → List (List Char)
  | [] => [[]]
  | c :: t =>
    if c == sep then [] :: pySplitCh sep t
    else
      match pySplitCh sep t with
      | [] => [[c]]
      | g :: gs => (c :: g) :: gs

/-- Embedding of the word-character class of Python's `re` (`\w`), restricted
to ASCII: letters, digits and underscore. -/
def isWordChar (c : Char) : Bool := c.isAlphanum || c == '_'

/-- Character class of the regex body `[\d,]`: a digit or a comma. -/
def isRunChar (c : Char) : Bool := c.isDigit || c == ','

/-- Word-boundary test for the position before a digit (the leading `\b` of
the pattern in src/utils.py:84): `pre` is the character preceding the match
position, `none` at the start of the string. -/
def boundaryBefore (pre : Option Char) : Bool :=
  match pre with
  | none => true
  | some c => !isWordChar c

/-- Word-boundary test after a match candidate ending in `c`, where `nxt` is
the following character (`none` at the end of the string). -/
def boundaryAfter (c : Char) (nxt : Option Char) : Bool :=
  match nxt with
  | none => isWordChar c
  | some d => isWordChar c != isWordChar d

/-- Backtracking step of the regex engine for the trailing `\b`: given the
reversed greedy candidate and the characters after it, drop characters from
the candidate's right end until the boundary holds; `none` when even the
single leading digit fails. -/
def trimRev : List Char → List Char → Option (List Char × List Char)
  | [], _ => none
  | c :: rs, after =>
    if boundaryAfter c after.head? then some (c :: rs, after)
    else trimRev rs (c :: after)

/-- Fueled scan loop of `re.findall(r"\b\d[\d,]*\b", s)`: leftmost
non-overlapping matches, greedy run of `[\d,]` trimmed back to a word
boundary. `pre` is the character just before the current position. -/
def findallAux : Nat → Option Char → List Char → List (List Char)
  | 0, _, _ => []
  | _ + 1, _, [] => []
  | fuel + 1, pre, c :: t =>
    if c.isDigit && boundaryBefore pre then
      match trimRev ((c :: t).takeWhile isRunChar).reverse ((c :: t).dropWhile isRunChar) with
      | some (rev, after) => rev.reverse :: findallAux fuel rev.head? after
      | none => findallAux fuel (some c) t
    else findallAux fuel (some c) t

/-- Embedding of `re.findall(r"\b\d[\d,]*\b", s)` from src/utils.py:84 (fuel
`s.length + 1` always suffices since every step consumes a character). -/
def findallWB (s : List Char) : List (List Char) :=
  findallAux (s.length + 1) none s

/-- Modelled from the spec: all maximal runs matching `\d[\d,]*` in a string,
in order — the claim's description of the number extractor, which has no
word-boundary anchors. -/
def findallMaxRuns : Nat → List Char → List (List Char)
  | 0, _ => []
  | _ + 1, [] => []
  | fuel + 1, c :: t =>
    if c.isDigit then (c :: t.takeWhile isRunChar) :: findallMaxRuns fuel (t.dropWhile isRunChar)
    else findallMaxRuns fuel t

/-- Wrapper for `findallMaxRuns` with sufficient fuel. -/
def maxRuns (s : List Char) : List (List Char) :=
  findallMaxRuns (s.length + 1) s

/-!
HTML document model: the fragment of a parsed BeautifulSoup tree the code
queries. Elements carry their tag, optional `id` attribute and class list;
`find`/`find_all` walk descendants in document (pre)order.
-/

/-- Parsed HTML node: a text fragment or an element with tag, optional id
attribute, class list and children. -/
inductive Node where
  | text (s : String)
  | elem (tag : String) (idAttr : Option String) (classes : List String) (children : List Node)

mutual
/-- Descendants of a node in document (pre)order, the traversal order of
BeautifulSoup's `find`/`find_all` on an element. -/
def descendants : Node → List Node
  | .text _ => []
  | .elem _ _ _ ch => descendantsL ch

/-- Descendants of a forest: each root followed by its own descendants. -/
def descendantsL : List Node → List Node
  | [] => []
  | n :: ns => n :: descendants n ++ descendantsL ns
end

mutual
/-- Text fragments of a node's subtree, in document order (the `.strings` of
BeautifulSoup). -/
def textFrags : Node → List String
  | .text s => [s]
  | .elem _ _ _ ch => textFragsL ch

/-- Text fragments of a forest. -/
def textFragsL : List Node → List String
  | [] => []
  | n :: ns => textFrags n ++ textFragsL ns
end

/-- Embedding of BeautifulSoup `tag.get_text(strip=True)`: every text
fragment stripped, then concatenated with no separator. -/
def getTextStrip (n : Node) : String :=
  String.join ((textFrags n).map pyStrip)

/-- Embedding of `soup.find(...)` on the whole document (a forest of
top-level nodes): first node in document order satisfying the filter. -/
def findFirstP (p : Node → Bool) (soup : List Node) : Option Node :=
  ((descendantsL soup).filter p).head?

/-- Embedding of `element.find_all(...)`: all descendants of the element
satisfying the filter, in document order. -/
def findAllUnder (p : Node → Bool) (n : Node) : List Node :=
  (descendants n).filter p

/-- Filter for `soup.find("h1", class_="page-header")` (src/utils.py:74). -/
def isH1PageHeader : Node → Bool
  | .elem tag _ classes _ => tag == "h1" && classes.contains "page-header"
  | .text _ => false

/-- Filter for `soup.find("div", id="rfp-ad-notice")` (src/utils.py:79). -/
def isNoticeDiv : Node → Bool
  | .elem tag idAttr _ _ => tag == "div" && idAttr == some "rfp-ad-notice"
  | .text _ => false

/-- Filter for `soup.find("table", id="bidresultlist")` (src/utils.py:89). -/
def isBidTable : Node → Bool
  | .elem tag idAttr _ _ => tag == "table" && idAttr == some "bidresultlist"
  | .text _ => false

/-- Filter for `soup.find("table", id="awardlist")` (src/utils.py:101). -/
def isAwardTable : Node → Bool
  | .elem tag idAttr _ _ => tag == "table" && idAttr == some "awardlist"
  | .text _ => false

/-- Filter for `find_all("tr")`. -/
def isTr : Node → Bool
  | .elem tag _ _ _ => tag == "tr"
  | .text _ => false

/-- Filter for `find_all("td")`. -/
def isTd : Node → Bool
  | .elem tag _ _ _ => tag == "td"
  | .text _ => false

/-!
Record Extractor (src/utils.py:72-116) and its record type.
-/

/-- One row of the bid-results table (spec's BidRow). -/
structure BidRow where
  company : String
  bid_amount : String
deriving DecidableEq

/-- One row of the awards table (spec's AwardRow). -/
structure AwardRow where
  firm_name : String
  award_amt : String
deriving DecidableEq

/-- The record returned by `extract_data` (spec's OpportunityRecord). -/
structure RecordOut where
  title : String
  estimated_numbers : List (String × List String)
  bid_results : List BidRow
  awards : List AwardRow
deriving DecidableEq

/-- Embedding of the sentence loop of src/utils.py:81-85: split the notice
text on periods, keep sentences whose lower-casing contains "estimated",
pair the stripped sentence with the regex matches of the unstripped one. -/
def estimatedFromText (txt : String) : List (String × List String) :=
  (pySplitCh '.' txt.toList).foldl
    (fun acc sent =>
      if containsSub "estimated".toList (sent.map Char.toLower) then
        acc ++ [(String.mk (pyStripL sent), (findallWB sent).map String.mk)]
      else acc) []

/-- Embedding of the bid-results row loop of src/utils.py:91-97: skip the
header row, and for each row whose `td` cells number at least three
(`if len(cols) >= 3`), take `cols[1]` and `cols[2]` as company and bid
amount. -/
def bidFromTable (tbl : Node) : List BidRow :=
  ((findAllUnder isTr tbl).drop 1).foldl
    (fun acc row =>
      if h : 3 ≤ (findAllUnder isTd row).length then
        acc ++ [⟨getTextStrip ((findAllUnder isTd row).get ⟨1, by omega⟩),
                 getTextStrip ((findAllUnder isTd row).get ⟨2, by omega⟩)⟩]
      else acc) []

/-- Embedding of the awards row loop of src/utils.py:103-109 (same shape as
the bid loop, `cols[1]` and `cols[2]` as firm name and award amount). -/
def awardsFromTable (tbl : Node) : List AwardRow :=
  ((findAllUnder isTr tbl).drop 1).foldl
    (fun acc row =>
      if h : 3 ≤ (findAllUnder isTd row).length then
        acc ++ [⟨getTextStrip ((findAllUnder isTd row).get ⟨1, by omega⟩),
                 getTextStrip ((findAllUnder isTd row).get ⟨2, by omega⟩)⟩]
      else acc) []

/-- Embedding of `extract_data` (src/utils.py:72-116). -/
def extract_data (soup : List Node) : RecordOut :=
  { title :=
      match findFirstP isH1PageHeader soup with
      | some t => getTextStrip t
      | none => "Title not found"
    estimated_numbers :=
      match findFirstP isNoticeDiv soup with
      | some n => estimatedFromText (getTextStrip n)
      | none => []
    bid_results :=
      match findFirstP isBidTable soup with
      | some tbl => bidFromTable tbl
      | none => []
    awards :=
      match findFirstP isAwardTable soup with
      | some tbl => awardsFromTable tbl
      | none => [] }

/-!
Link Harvester title normalization (src/utils.py:64).
-/

/-- Normalization applied on `List Char`:
`.replace("'", "").replace(" ", "_").replace("_–_", "-")`. -/
def normalizeTitleL (l : List Char) : List Char :=
  pyReplace ['_', '–', '_'] ['-']
    (pyReplace [' '] ['_']
      (pyReplace [apos] [] l))

/-- Embedding of the title normalization chain of src/utils.py:64. -/
def normalizeTitle (s : String) : String :=
  String.mk (normalizeTitleL s.toList)

/-- Modelled from the spec: strip apostrophes (drop every apostrophe
character), replace every space with an underscore, then replace every
occurrence of the literal substring underscore/en-dash/underscore with a
hyphen. -/
def normalizeSpecL (l : List Char) : List Char :=
  pyReplace ['_', '–', '_'] ['-']
    ((l.filter (fun c => c != apos)).map (fun c => if c = ' ' then '_' else c))

/-!
Python runtime values, `str()` representation, hashability, and the
`temp_pickle` decorator (src/utils.py:17-44).
-/

/-- Python values as they flow through the aggregation and serialization
steps: strings, booleans, lists, tuples and string-keyed dicts. -/
inductive PyVal where
  | str (s : String)
  | bool (b : Bool)
  | list (xs : List PyVal)
  | tuple (xs : List PyVal)
  | dict (kvs : List (String × PyVal))

/-- A Python dict with string keys in insertion order (the records built by
`extract_data` and consumed by `extract_multiple_to_df`). -/
abbrev PyDict := List (String × PyVal)

/-- String repr of a Python string: CPython quotes with an apostrophe unless
the string contains one and no double quote, escaping backslashes and the
chosen quote. Control-character escapes are not modelled; no theorem depends
on the rendering. -/
def pyReprString (s : String) : String :=
  let q : Char := if s.toList.contains apos && !s.toList.contains '"' then '"' else apos
  let esc : Char → String := fun c =>
    if c = '\\' then "\\\\"
    else if c = q then String.mk ['\\', q]
    else String.singleton c
  String.singleton q ++ String.join (s.toList.map esc) ++ String.singleton q

mutual
/-- Embedding of Python `repr` on the modelled values. -/
def pyRepr : PyVal → String
  | .str s => pyReprString s
  | .bool b => if b then "True" else "False"
  | .list xs => "[" ++ String.intercalate ", " (pyReprL xs) ++ "]"
  | .tuple xs =>
    "(" ++ String.intercalate ", " (pyReprL xs) ++ (if xs.length == 1 then ",)" else ")")
  | .dict kvs => "\x7b" ++ String.intercalate ", " (pyReprKVs kvs) ++ "\x7d"

/-- Reprs of a list of values. -/
def pyReprL : List PyVal → List String
  | [] => []
  | x :: xs => pyRepr x :: pyReprL xs

/-- Reprs of the key/value pairs of a dict. -/
def pyReprKVs : List (String × PyVal) → List String
  | [] => []
  | kv :: kvs => (pyReprString kv.1 ++ ": " ++ pyRepr kv.2) :: pyReprKVs kvs
end

/-- Embedding of Python `str(value)`: the string itself for strings, the repr
for every other modelled value (the conversion src/utils.py:133 applies to
each field). -/
def pyStr : PyVal → String
  | .str s => s
  | v => pyRepr v

mutual
/-- Embedding of Python hashability: strings and booleans hash, lists and
dicts raise `TypeError`, tuples hash exactly when all their elements do. -/
def pyHashable : PyVal → Bool
  | .str _ => true
  | .bool _ => true
  | .list _ => false
  | .dict _ => false
  | .tuple xs => pyHashableL xs

/-- Hashability of every element of a list. -/
def pyHashableL : List PyVal → Bool
  | [] => true
  | x :: xs => pyHashable x && pyHashableL xs
end

/-- Errors of the embedded Python fragments. -/
inductive PyErr where
  | typeError
  | attributeError
  | valueError
  | ioError
  | yamlError
deriving DecidableEq

/-- Embedding of the loop body of `extract_multiple_to_df`
(src/utils.py:129-140): for each record append a row; with `iscsv` every
value is converted by `str`, otherwise the row copies the dict unchanged. -/
def extract_multiple_to_df_body (data_list : List PyDict) (iscsv : Bool) : List PyDict :=
  data_list.foldl
    (fun acc d =>
      if iscsv then acc ++ [d.map (fun kv => (kv.1, PyVal.str (pyStr kv.2)))]
      else acc ++ [d.map (fun kv => (kv.1, kv.2))]) []

/-- Embedding of the decorated `extract_multiple_to_df` (src/utils.py:119):
the `temp_pickle` wrapper first builds the cache file name, whose f-string
evaluates `hash(args)` on the tuple of positional arguments; an unhashable
tuple raises `TypeError` before the cache check and before the wrapped body.
On hashable arguments the wrapper runs the body and deletes the cache file it
just wrote, so it is observationally the body (a cache file never survives a
completed call). -/
def extract_multiple_to_df (data_list : List PyDict) (iscsv : Bool) :
    Except PyErr (List PyDict) :=
  if pyHashable (.tuple [.list (data_list.map PyVal.dict), .bool iscsv]) then
    .ok (extract_multiple_to_df_body data_list iscsv)
  else .error .typeError

/-!
JSON writer (src/utils.py:186-191): `json.dump(..., ensure_ascii=False,
indent=4)`.
-/

/-- Hexadecimal digit for the `\u00XX` escapes. -/
def hexDigit (n : Nat) : Char :=
  if n < 10 then Char.ofNat ('0'.toNat + n) else Char.ofNat ('a'.toNat + n - 10)

/-- JSON escaping of one character with `ensure_ascii=False`: quote,
backslash and control characters are escaped, everything else — including
non-ASCII characters — is written literally. -/
def jsonEscapeChar (c : Char) : String :=
  if c = '"' then "\\\""
  else if c = '\\' then "\\\\"
  else if c = '\n' then "\\n"
  else if c = '\t' then "\\t"
  else if c = '\r' then "\\r"
  else if c = Char.ofNat 8 then "\\b"
  else if c = Char.ofNat 12 then "\\f"
  else if c.toNat < 32 then
    "\\u00" ++ String.mk [hexDigit (c.toNat / 16), hexDigit (c.toNat % 16)]
  else String.singleton c

/-- JSON rendering of a string literal. -/
def jsonStr (s : String) : String :=
  "\"" ++ String.join (s.toList.map jsonEscapeChar) ++ "\""

/-- Indentation of `json.dump(..., indent=4)` at a nesting level. -/
def indentStr (lvl : Nat) : String := String.mk (List.replicate (4 * lvl) ' ')

/-- Layout of a JSON array at a nesting level from its rendered items. -/
def jsonArr (lvl : Nat) (items : List String) : String :=
  match items with
  | [] => "[]"
  | _ =>
    "[\n" ++ String.intercalate ",\n" (items.map (fun it => indentStr (lvl + 1) ++ it))
      ++ "\n" ++ indentStr lvl ++ "]"

/-- Layout of a JSON object at a nesting level from its rendered fields. -/
def jsonObj (lvl : Nat) (fields : List String) : String :=
  match fields with
  | [] => "\x7b\x7d"
  | _ =>
    "\x7b\n" ++ String.intercalate ",\n" (fields.map (fun f => indentStr (lvl + 1) ++ f))
      ++ "\n" ++ indentStr lvl ++ "\x7d"

mutual
/-- Embedding of `json.dump(value, ensure_ascii=False, indent=4)` (tuples
serialize as arrays, as in Python's json module). -/
def jsonVal : Nat → PyVal → String
  | _, .str s => jsonStr s
  | _, .bool b => if b then "true" else "false"
  | lvl, .list xs => jsonArr lvl (jsonItems (lvl + 1) xs)
  | lvl, .tuple xs => jsonArr lvl (jsonItems (lvl + 1) xs)
  | lvl, .dict kvs => jsonObj lvl (jsonFields (lvl + 1) kvs)

/-- Rendered items of an array. -/
def jsonItems : Nat → List PyVal → List String
  | _, [] => []
  | lvl, x :: xs => jsonVal lvl x :: jsonItems lvl xs

/-- Rendered fields of an object. -/
def jsonFields : Nat → List (String × PyVal) → List String
  | _, [] => []
  | lvl, kv :: kvs => (jsonStr kv.1 ++ ": " ++ jsonVal lvl kv.2) :: jsonFields lvl kvs
end

/-- Embedding of `save2json` (src/utils.py:186-191): `df.to_dict('records')`
round-trips the record list (the DataFrame was built from these records,
which share the same four keys), and the list is dumped as a JSON array with
`ensure_ascii=False, indent=4`. -/
def save2json_content (records : List PyDict) : String :=
  jsonVal 0 (.list (records.map PyVal.dict))

/-!
Configuration loader (src/utils.py:167-183) and the extraction run
(src/scrap_contents.py:14-45).
-/

/-- Outcome of reading one configuration path: the file is missing (or
unreadable), present but malformed YAML, or parses to a title-to-URL
mapping (the shape `save_dict_to_yaml` writes). -/
inductive FileResult where
  | missing
  | malformed
  | ok (m : List (String × String))

/-- The body of `load_yaml_to_dict`'s `try` block: open and parse the file,
raising on a missing file or malformed YAML. -/
def rawLoadYaml (fs : String → FileResult) (path : String) :
    Except PyErr (List (String × String)) :=
  match fs path with
  | .missing => .error .ioError
  | .malformed => .error .yamlError
  | .ok m => .ok m

/-- Embedding of `load_yaml_to_dict` (src/utils.py:167-183): every exception
from the body is caught locally, logged and turned into `None`. -/
def load_yaml_to_dict (fs : String → FileResult) (path : String) :
    Option (List (String × String)) :=
  match rawLoadYaml fs path with
  | .ok m => some m
  | .error _ => none

/-- Conversion of an extracted record to the Python dict `extract_data`
returns (src/utils.py:111-116). -/
def recordToPy (r : RecordOut) : PyDict :=
  [("title", .str r.title),
   ("estimated_numbers",
     .list (r.estimated_numbers.map (fun p => .tuple [.str p.1, .list (p.2.map PyVal.str)]))),
   ("bid_results",
     .list (r.bid_results.map (fun b => .dict [("company", .str b.company), ("bid_amount", .str b.bid_amount)]))),
   ("awards",
     .list (r.awards.map (fun a => .dict [("firm_name", .str a.firm_name), ("award_amt", .str a.award_amt)])))]

/-- The site base URL of src/scrap_contents.py:12. -/
def SITE : String := "https://www.dasny.org/"

/-- Default CSV path of src/scrap_contents.py:33:
`output/csv/` plus the configuration file's base name. -/
def defaultCsvPath (yamlPath : String) : String :=
  "output/csv/"
    ++ String.mk ((pySplitCh '.' ((pySplitCh '/' yamlPath.toList).getLastD [])).headD [])
    ++ ".csv"

/-- Result of a completed run: which writer ran, with its path and payload. -/
inductive MainOutcome where
  | wroteDefaultCsv (path : String) (rows : List PyDict)
  | wroteCsv (path : String) (rows : List PyDict)
  | wroteJson (path : String) (content : String)

/-- Embedding of `main` in src/scrap_contents.py:14-45 for a run in which
every page fetch succeeds (`fetch` yields the parsed page; a non-2xx response
would abort even earlier and is orthogonal to the claims settled here).
Loading the configuration yields `None` on failure, and the unconditional
`urls.values()` on `None` raises `AttributeError`; otherwise each linked page
is fetched and extracted, the records are aggregated through the decorated
`extract_multiple_to_df`, and the `iscsv` flag and output dispatch follow
lines 27-45. `pd.DataFrame` over the produced row dicts followed by
`to_dict`/`to_csv` is modelled as carrying the rows through. -/
def mainModel (fs : String → FileResult) (fetch : String → List Node)
    (yamlPath : String) (output : Option String) : Except PyErr MainOutcome :=
  match load_yaml_to_dict fs yamlPath with
  | none => .error .attributeError
  | some urls =>
    let data : List PyDict :=
      urls.map (fun kv => recordToPy (extract_data (fetch (SITE ++ kv.2))))
    let iscsv : Bool :=
      match output with
      | none => true
      | some o => o.isEmpty || o.endsWith ".csv"
    match extract_multiple_to_df data iscsv with
    | .error e => .error e
    | .ok df =>
      match output with
      | none => .ok (.wroteDefaultCsv (defaultCsvPath yamlPath) df)
      | some o =>
        if o.isEmpty then .ok (.wroteDefaultCsv (defaultCsvPath yamlPath) df)
        else if o.endsWith ".json" then .ok (.wroteJson o (save2json_content df))
        else if o.endsWith ".csv" then .ok (.wroteCsv o df)
        else .error .valueError

/-!
Spec-side formulations used by the refinement claims.
-/

/-- Modelled from the spec's words for the estimate extractor (with the
word-boundary matcher in place of plain maximal runs): split the text on
period characters, keep exactly the sentences containing the
case-insensitive substring "estimated", and pair each trimmed kept sentence
with its regex matches, keeping the pair even when no numbers were found. -/
def estimatedSpec (txt : String) : List (String × List String) :=
  (pySplitCh '.' txt.toList).filterMap
    (fun sent =>
      if containsSub "estimated".toList (sent.map Char.toLower) then
        some (String.mk (pyStripL sent), (findallWB sent).map String.mk)
      else none)

/-- Modelled from the claim's words for the estimate extractor: as
`estimatedSpec`, but with the numbers list given by all maximal runs
matching `\d[\d,]*`, as claim C3 states it. -/
def estimatedClaimed (txt : String) : List (String × List String) :=
  (pySplitCh '.' txt.toList).filterMap
    (fun sent =>
      if containsSub "estimated".toList (sent.map Char.toLower) then
        some (String.mk (pyStripL sent), (maxRuns sent).map String.mk)
      else none)

/-- Modelled from the spec's words for the bid-results extractor: skip the
first (header) row; every remaining row with at least 3 cells contributes
cell 1 as company and cell 2 as bid amount (both trimmed), in row order;
rows with fewer than 3 cells are skipped. -/
def bidRowsSpec (tbl : Node) : List BidRow :=
  ((findAllUnder isTr tbl).drop 1).filterMap
    (fun row =>
      if h : 3 ≤ (findAllUnder isTd row).length then
        some ⟨getTextStrip ((findAllUnder isTd row).get ⟨1, by omega⟩),
              getTextStrip ((findAllUnder isTd row).get ⟨2, by omega⟩)⟩
      else none)

/-!
Helper lemmas about the embedded string primitives.
-/

/-- A detected initial segment is no longer than the scanned list. -/
theorem isPre_length {od l : List Char} (h : isPre od l = true) : od.length ≤ l.length := by
  induction od generalizing l with
  | nil => simp
  | cons a as ih =>
    cases l with
    | nil => simp [isPre] at h
    | cons b bs =>
      simp only [isPre, Bool.and_eq_true] at h
      simpa using ih h.2

/-- Replacement in the empty string yields the empty string. -/
theorem pyReplace_nil (od nw : List Char) : pyReplace od nw [] = [] := by
  rw [pyReplace]
  rcases od with _ | ⟨a, as⟩
  · rw [dif_neg]
    simp
  · rw [dif_neg]
    intro hc
    simp [isPre] at hc

/-- Replacing one character by nothing is filtering it out. -/
theorem pyReplace_single_del (a : Char) :
    ∀ l : List Char, pyReplace [a] [] l = l.filter (fun c => c != a) := by
  intro l
  induction l with
  | nil => simp [pyReplace_nil]
  | cons c t ih =>
    rw [pyReplace]
    by_cases hac : a = c
    · subst hac
      rw [dif_pos ⟨by simp [isPre], by simp⟩]
      simpa using ih
    · rw [dif_neg]
      · have hca : (c != a) = true := by
          simp [bne]
          exact fun he => hac he.symm
        simp [List.filter_cons, hca, ih]
      · intro hc
        have := hc.1
        simp [isPre] at this
        exact hac this

/-- Replacing one character by another one is mapping over the string. -/
theorem pyReplace_single_map (a b : Char) :
    ∀ l : List Char, pyReplace [a] [b] l = l.map (fun c => if c = a then b else c) := by
  intro l
  induction l with
  | nil => simp [pyReplace_nil]
  | cons c t ih =>
    rw [pyReplace]
    by_cases hac : a = c
    · subst hac
      rw [dif_pos ⟨by simp [isPre], by simp⟩]
      simp [ih]
    · rw [dif_neg]
      · have : ¬c = a := fun he => hac he.symm
        simp [List.map_cons, this, ih]
      · intro hc
        have := hc.1
        simp [isPre] at this
        exact hac this

/-- Every character of a replacement result comes from the input or from the
replacement string. -/
theorem mem_pyReplace (od nw : List Char) :
    ∀ l c, c ∈ pyReplace od nw l → c ∈ l ∨ c ∈ nw := by
  suffices h : ∀ n l, l.length ≤ n → ∀ c, c ∈ pyReplace od nw l → c ∈ l ∨ c ∈ nw by
    intro l c
    exact h l.length l le_rfl c
  intro n
  induction n with
  | zero =>
    intro l hl c hc
    have hnil : l = [] := by cases l <;> simp_all
    subst hnil
    rw [pyReplace_nil] at hc
    simp at hc
  | succ n ih =>
    intro l hl c hc
    rw [pyReplace] at hc
    by_cases hcond : isPre od l = true ∧ od ≠ []
    · rw [dif_pos hcond] at hc
      rcases List.mem_append.1 hc with hnw | hrec
      · exact Or.inr hnw
      · have hlen : (l.drop od.length).length ≤ n := by
          have h1 : 1 ≤ od.length := by
            cases hod : od with
            | nil => exact absurd hod hcond.2
            | cons x xs => simp
          have h2 : od.length ≤ l.length := isPre_length hcond.1
          simp only [List.length_drop]
          omega
        rcases ih _ hlen c hrec with hmem | hnw
        · exact Or.inl (List.mem_of_mem_drop hmem)
        · exact Or.inr hnw
    · rw [dif_neg hcond] at hc
      cases l with
      | nil => simp at hc
      | cons d t =>
        rcases List.mem_cons.1 hc with hd | hrec
        · exact Or.inl (hd ▸ List.mem_cons_self d t)
        · have hlen : t.length ≤ n := by
            simp at hl
            omega
          rcases ih t hlen c hrec with hmem | hnw
          · exact Or.inl (List.mem_cons_of_mem d hmem)
          · exact Or.inr hnw

/-- Prepending characters that cannot start the pattern does not create an
occurrence of the pattern. -/
theorem containsSub_append_disjoint (od : List Char) (hod : od ≠ []) :
    ∀ p r : List Char, (∀ c ∈ p, c ∉ od) →
      containsSub od (p ++ r) = containsSub od r := by
  intro p
  induction p with
  | nil => intro r _; simp
  | cons x p ih =>
    intro r hp
    have hx : x ∉ od := hp x (List.mem_cons_self x p)
    have hstep : isPre od (x :: (p ++ r)) = false := by
      cases hodc : od with
      | nil => exact absurd hodc hod
      | cons o os =>
        have ho : o ∈ od := hodc ▸ List.mem_cons_self o os
        have hne : (o == x) = false := by
          simp
          intro he
          exact hx (he ▸ ho)
        simp [isPre, hne]
    have hunf : containsSub od ((x :: p) ++ r)
        = (isPre od (x :: (p ++ r)) || containsSub od (p ++ r)) := rfl
    rw [hunf, hstep, Bool.false_or]
    exact ih r (fun c hc => hp c (List.mem_cons_of_mem x hc))

/-- Core invariant of one replacement pass: the output contains no occurrence
of the pattern, and any non-empty initial segment of the output drawn from
the pattern's characters is also an initial segment of the input. Requires a
non-empty replacement sharing no character with the pattern. -/
theorem pyReplace_no_occurrence (od nw : List Char) (hod : od ≠ []) (hnw : nw ≠ [])
    (hdisj : ∀ c ∈ nw, c ∉ od) :
    ∀ l, containsSub od (pyReplace od nw l) = false ∧
      (∀ k, k ≠ [] → (∀ c ∈ k, c ∈ od) → isPre k (pyReplace od nw l) = true →
        isPre k l = true) := by
  suffices h : ∀ n l, l.length ≤ n →
      containsSub od (pyReplace od nw l) = false ∧
      (∀ k, k ≠ [] → (∀ c ∈ k, c ∈ od) → isPre k (pyReplace od nw l) = true →
        isPre k l = true) by
    intro l
    exact h l.length l le_rfl
  intro n
  induction n with
  | zero =>
    intro l hl
    have hnil : l = [] := by cases l <;> simp_all
    subst hnil
    rw [pyReplace_nil]
    constructor
    · cases hodc : od with
      | nil => exact absurd hodc hod
      | cons o os => simp [containsSub]
    · intro k hk _ hkpre
      cases k with
      | nil => exact absurd rfl hk
      | cons k0 ks => simp [isPre] at hkpre
  | succ n ih =>
    intro l hl
    by_cases hcond : isPre od l = true ∧ od ≠ []
    · rw [pyReplace, dif_pos hcond]
      have hlen : (l.drop od.length).length ≤ n := by
        have h1 : 1 ≤ od.length := by
          cases hodc : od with
          | nil => exact absurd hodc hod
          | cons x xs => simp
        have h2 : od.length ≤ l.length := isPre_length hcond.1
        simp only [List.length_drop]
        omega
      have ihd := ih _ hlen
      constructor
      · rw [containsSub_append_disjoint od hod nw _ hdisj]
        exact ihd.1
      · intro k hk hkmem hkpre
        cases k with
        | nil => exact absurd rfl hk
        | cons k0 ks =>
          cases hnwc : nw with
          | nil => exact absurd hnwc hnw
          | cons m ms =>
            rw [hnwc] at hkpre
            simp only [List.cons_append, isPre, Bool.and_eq_true] at hkpre
            have hm : m ∈ nw := hnwc ▸ List.mem_cons_self m ms
            have hk0 : k0 ∈ od := hkmem k0 (List.mem_cons_self k0 ks)
            have : k0 = m := by simpa using hkpre.1
            exact absurd (this ▸ hk0) (hdisj m hm)
    · cases l with
      | nil =>
        rw [pyReplace_nil]
        constructor
        · cases hodc : od with
          | nil => exact absurd hodc hod
          | cons o os => simp [containsSub]
        · intro k hk _ hkpre
          cases k with
          | nil => exact absurd rfl hk
          | cons k0 ks => simp [isPre] at hkpre
      | cons c t =>
        have hstep : pyReplace od nw (c :: t) = c :: pyReplace od nw t := by
          rw [pyReplace, dif_neg hcond]
        rw [hstep]
        have hpre : isPre od (c :: t) = false := by
          rcases Bool.eq_false_or_eq_true (isPre od (c :: t)) with ht | hf
          · exact absurd ⟨ht, hod⟩ hcond
          · exact hf
        have hlen : t.length ≤ n := by
          simp at hl
          omega
        have iht := ih t hlen
        have hB : ∀ k, k ≠ [] → (∀ c' ∈ k, c' ∈ od) →
            isPre k (c :: pyReplace od nw t) = true → isPre k (c :: t) = true := by
          intro k hk hkmem hkpre
          cases k with
          | nil => exact absurd rfl hk
          | cons k0 ks =>
            simp only [isPre, Bool.and_eq_true] at hkpre ⊢
            refine ⟨hkpre.1, ?_⟩
            cases ks with
            | nil => simp [isPre]
            | cons k1 kt =>
              exact iht.2 (k1 :: kt) (by simp)
                (fun c' hc' => hkmem c' (List.mem_cons_of_mem k0 hc')) hkpre.2
        constructor
        · simp only [containsSub, Bool.or_eq_false_iff]
          constructor
          · rcases Bool.eq_false_or_eq_true (isPre od (c :: pyReplace od nw t)) with ht | hf
            · have : isPre od (c :: t) = true := hB od hod (fun c' hc' => hc') ht
              rw [hpre] at this
              exact absurd this (by simp)
            · exact hf
          · exact iht.1
        · exact hB

/-- Once the pattern no longer occurs, replacement is the identity. -/
theorem pyReplace_of_no_occurrence (od nw : List Char) (hod : od ≠ []) :
    ∀ l, containsSub od l = false → pyReplace od nw l = l := by
  suffices h : ∀ n l, l.length ≤ n → containsSub od l = false → pyReplace od nw l = l by
    intro l
    exact h l.length l le_rfl
  intro n
  induction n with
  | zero =>
    intro l hl _
    have hnil : l = [] := by cases l <;> simp_all
    subst hnil
    exact pyReplace_nil od nw
  | succ n ih =>
    intro l hl hno
    by_cases hcond : isPre od l = true ∧ od ≠ []
    · exfalso
      cases l with
      | nil =>
        cases hodc : od with
        | nil => exact absurd hodc hod
        | cons o os =>
          have := hcond.1
          rw [hodc] at this
          simp [isPre] at this
      | cons c t =>
        have : containsSub od (c :: t) = true := by
          simp [containsSub, hcond.1]
        rw [hno] at this
        exact absurd this (by simp)
    · cases l with
      | nil => exact pyReplace_nil od nw
      | cons c t =>
        have hstep : pyReplace od nw (c :: t) = c :: pyReplace od nw t := by
          rw [pyReplace, dif_neg hcond]
        rw [hstep]
        have hlen : t.length ≤ n := by
          simp at hl
          omega
        have ht : containsSub od t = false := by
          simp only [containsSub, Bool.or_eq_false_iff] at hno
          exact hno.2
        rw [ih t hlen ht]

/-- Mapping a function that fixes every element of a list is the identity. -/
theorem map_id_of_mem {α : Type} (g : α → α) :
    ∀ l : List α, (∀ c ∈ l, g c = c) → l.map g = l := by
  intro l
  induction l with
  | nil => intro _; rfl
  | cons c t ih =>
    intro h
    simp only [List.map_cons]
    rw [h c (List.mem_cons_self c t), ih (fun d hd => h d (List.mem_cons_of_mem c hd))]

/-- Filtering with a predicate that holds on every element is the identity. -/
theorem filter_id_of_mem {α : Type} (p : α → Bool) :
    ∀ l : List α, (∀ c ∈ l, p c = true) → l.filter p = l := by
  intro l
  induction l with
  | nil => intro _; rfl
  | cons c t ih =>
    intro h
    rw [List.filter_cons, if_pos (h c (List.mem_cons_self c t)),
      ih (fun d hd => h d (List.mem_cons_of_mem c hd))]

/-- Appending through an optional accumulator loop is `filterMap`. -/
theorem foldl_opt_append {α β : Type} (g : α → Option β) :
    ∀ (l : List α) (acc : List β),
      l.foldl (fun a x => match g x with | some b => a ++ [b] | none => a) acc
        = acc ++ l.filterMap g := by
  intro l
  induction l with
  | nil => intro acc; simp
  | cons x xs ih =>
    intro acc
    cases hgx : g x <;>
      simp [List.foldl_cons, List.filterMap_cons, hgx, ih]

/-- Appending through a guarded accumulator loop is `filterMap` over the
guarded option. -/
theorem foldl_if_append {α β : Type} (p : α → Bool) (f : α → β) :
    ∀ (l : List α) (acc : List β),
      l.foldl (fun a x => if p x then a ++ [f x] else a) acc
        = acc ++ l.filterMap (fun x => if p x then some (f x) else none) := by
  intro l
  induction l with
  | nil => intro acc; simp
  | cons x xs ih =>
    intro acc
    by_cases hp : p x <;>
      simp [List.foldl_cons, List.filterMap_cons, hp, ih]

/-- One pass of normalization already reaches a fixed point of each of its
three stages (no apostrophes or spaces survive, and the replacement pass
leaves no occurrence of the pattern). -/
theorem normalizeTitleL_idem : ∀ l : List Char, normalizeTitleL (normalizeTitleL l) = normalizeTitleL l := by
  intro l
  have hod : (['_', '–', '_'] : List Char) ≠ [] := by decide
  have hnw : (['-'] : List Char) ≠ [] := by decide
  have hdisj : ∀ c ∈ (['-'] : List Char), c ∉ (['_', '–', '_'] : List Char) := by decide
  unfold normalizeTitleL
  generalize hr1 : pyReplace [apos] [] l = r1
  generalize hr2 : pyReplace [' '] ['_'] r1 = r2
  have hnocc := (pyReplace_no_occurrence ['_', '–', '_'] ['-'] hod hnw hdisj r2).1
  generalize hr3 : pyReplace ['_', '–', '_'] ['-'] r2 = r3 at hnocc ⊢
  have hmem : ∀ c ∈ r3, c ∈ r2 ∨ c = '-' := by
    intro c hc
    rw [← hr3] at hc
    rcases mem_pyReplace _ _ _ _ hc with h | h
    · exact Or.inl h
    · right
      simpa using h
  have hr2chars : ∀ c ∈ r2, c ≠ apos ∧ c ≠ ' ' := by
    intro c hc
    rw [← hr2, pyReplace_single_map] at hc
    rcases List.mem_map.1 hc with ⟨d, hd, hdc⟩
    have hd1 : d ≠ apos := by
      rw [← hr1, pyReplace_single_del] at hd
      have := List.mem_filter.1 hd
      simpa using this.2
    by_cases hds : d = ' '
    · rw [if_pos hds] at hdc
      subst hdc
      constructor <;> decide
    · rw [if_neg hds] at hdc
      subst hdc
      exact ⟨hd1, hds⟩
  have h3chars : ∀ c ∈ r3, c ≠ apos ∧ c ≠ ' ' := by
    intro c hc
    rcases hmem c hc with h | h
    · exact hr2chars c h
    · subst h
      constructor <;> decide
  have h1 : pyReplace [apos] [] r3 = r3 := by
    rw [pyReplace_single_del]
    apply filter_id_of_mem
    intro c hc
    simpa using (h3chars c hc).1
  have h2 : pyReplace [' '] ['_'] r3 = r3 := by
    rw [pyReplace_single_map]
    apply map_id_of_mem
    intro c hc
    rw [if_neg (h3chars c hc).2]
  have h3 : pyReplace ['_', '–', '_'] ['-'] r3 = r3 :=
    pyReplace_of_no_occurrence _ _ hod r3 hnocc
  rw [h1, h2, h3]

/-- The sentence loop of the estimate extractor is the spec's filter-map. -/
theorem estimatedFromText_eq_spec (txt : String) :
    estimatedFromText txt = estimatedSpec txt := by
  unfold estimatedFromText estimatedSpec
  rw [foldl_if_append
    (fun sent => containsSub "estimated".toList (sent.map Char.toLower))
    (fun sent => (String.mk (pyStripL sent), (findallWB sent).map String.mk))]
  simp

/-- Appending through an unconditional accumulator loop is `map`. -/
theorem foldl_append_map {α β : Type} (f : α → β) :
    ∀ (l : List α) (acc : List β),
      l.foldl (fun a x => a ++ [f x]) acc = acc ++ l.map f := by
  intro l
  induction l with
  | nil => intro acc; simp
  | cons x xs ih =>
    intro acc
    simp [List.foldl_cons, ih]

/-- Appending through a proof-guarded accumulator loop is `filterMap` over
the guarded option. -/
theorem foldl_dite_append {α β : Type} (P : α → Prop) [DecidablePred P]
    (f : (x : α) → P x → β) :
    ∀ (l : List α) (acc : List β),
      l.foldl (fun a x => if h : P x then a ++ [f x h] else a) acc
        = acc ++ l.filterMap (fun x => if h : P x then some (f x h) else none) := by
  intro l
  induction l with
  | nil => intro acc; simp
  | cons x xs ih =>
    intro acc
    by_cases hp : P x <;>
      simp [List.foldl_cons, List.filterMap_cons, hp, ih]

/-- The bid-results row loop is the spec's skip-header filter-map. -/
theorem bidFromTable_eq_spec (tbl : Node) : bidFromTable tbl = bidRowsSpec tbl := by
  unfold bidFromTable bidRowsSpec
  simpa using foldl_dite_append
    (fun row => 3 ≤ (findAllUnder isTd row).length)
    (fun row h => (⟨getTextStrip ((findAllUnder isTd row).get ⟨1, by omega⟩),
                    getTextStrip ((findAllUnder isTd row).get ⟨2, by omega⟩)⟩ : BidRow))
    ((findAllUnder isTr tbl).drop 1) []

/-!
Claim theorems.
-/

/-- C1: every call of the decorated `extract_multiple_to_df` with a list of
records as its first argument (the only way the program calls it) makes
`temp_pickle` evaluate `hash(args)` on a tuple containing that list and
raises `TypeError` before the wrapped body runs, so on any run whose
configuration loads, neither the CSV writer nor the JSON writer is ever
reached. -/
theorem c1_temp_pickle_typeerror :
    (∀ (data_list : List PyDict) (iscsv : Bool),
        extract_multiple_to_df data_list iscsv = .error .typeError) ∧
    (∀ (fs : String → FileResult) (fetch : String → List Node) (yamlPath : String)
        (output : Option String) (m : List (String × String)),
        fs yamlPath = .ok m →
          mainModel fs fetch yamlPath output = .error .typeError ∧
          ∀ o, mainModel fs fetch yamlPath output ≠ .ok o) := by
  have hw : ∀ (data_list : List PyDict) (iscsv : Bool),
      extract_multiple_to_df data_list iscsv = .error .typeError := by
    intro d b
    simp [extract_multiple_to_df, pyHashable, pyHashableL]
  refine ⟨hw, ?_⟩
  intro fs fetch yamlPath output m h
  have hload : load_yaml_to_dict fs yamlPath = some m := by
    simp [load_yaml_to_dict, rawLoadYaml, h]
  constructor
  · simp [mainModel, hload, hw]
  · intro o
    simp [mainModel, hload, hw]

/-- Witness for C1 at a concrete configuration, fetcher and output path. -/
theorem c1_temp_pickle_typeerror_witness :
    (fun _ : String => FileResult.ok [("Some_Title", "opportunity/1")])
        "urls/bid-results-and-awards.yaml" = .ok [("Some_Title", "opportunity/1")] ∧
    mainModel (fun _ => FileResult.ok [("Some_Title", "opportunity/1")]) (fun _ => [])
        "urls/bid-results-and-awards.yaml" (some "out.json") = .error .typeError :=
  ⟨rfl, (c1_temp_pickle_typeerror.2 _ _ _ _ _ rfl).1⟩

/-- C2 (divergence witness): on a run with a loadable configuration and the
output path "out.txt", the code fails with the `TypeError` raised inside
`temp_pickle`, not with the `UnsupportedFormatError` (`ValueError`) the
claim describes, and no writer is selected. -/
theorem c2_unsupported_format_unreachable :
    mainModel (fun _ => FileResult.ok [("Some_Title", "opportunity/1")]) (fun _ => [])
        "urls/bid-results-and-awards.yaml" (some "out.txt") = .error .typeError ∧
    (Except.error PyErr.typeError : Except PyErr MainOutcome) ≠ Except.error PyErr.valueError :=
  ⟨rfl, by simp⟩

/-- C3 (counterexample): for the notice text "The estimated cost is abc123."
the code keeps the sentence with an empty numbers list (the word boundary
`\b` of the pattern rejects a digit run glued to letters), while the claim's
maximal-run reading yields the number "123", so the claim as stated is
false. -/
theorem c3_maximal_runs_counterexample :
    estimatedFromText "The estimated cost is abc123."
      = [("The estimated cost is abc123", [])] ∧
    estimatedClaimed "The estimated cost is abc123."
      = [("The estimated cost is abc123", ["123"])] ∧
    estimatedFromText "The estimated cost is abc123."
      ≠ estimatedClaimed "The estimated cost is abc123." := by
  refine ⟨by decide, by decide, by decide⟩

/-- C3 (amended): for every notice-section text, the estimate extractor
splits the text on period characters, keeps exactly those candidate
sentences containing the case-insensitive substring "estimated", and pairs
each trimmed kept sentence with the matches of `\b\d[\d,]*\b` (maximal
digit-and-comma runs additionally required to start and end at a word
boundary), in order, keeping the pair even when the numbers list is empty;
in particular the text "Total estimated cost is 1,250,000 dollars. Other
info here." yields exactly one mention with numbers ["1,250,000"] and drops
the second sentence. -/
theorem c3_estimated_amended :
    (∀ (soup : List Node) (n : Node),
        findFirstP isNoticeDiv soup = some n →
          (extract_data soup).estimated_numbers = estimatedSpec (getTextStrip n)) ∧
    estimatedFromText "Total estimated cost is 1,250,000 dollars. Other info here."
      = [("Total estimated cost is 1,250,000 dollars", ["1,250,000"])] := by
  constructor
  · intro soup n h
    simp only [extract_data, h]
    exact estimatedFromText_eq_spec _
  · decide

/-- Witness for C3 on a concrete notice section. -/
theorem c3_estimated_amended_witness :
    findFirstP isNoticeDiv
        [Node.elem "div" (some "rfp-ad-notice") []
          [Node.text "Total estimated cost is 1,250,000 dollars. Other info here."]]
      = some (Node.elem "div" (some "rfp-ad-notice") []
          [Node.text "Total estimated cost is 1,250,000 dollars. Other info here."]) ∧
    (extract_data
        [Node.elem "div" (some "rfp-ad-notice") []
          [Node.text "Total estimated cost is 1,250,000 dollars. Other info here."]]).estimated_numbers
      = estimatedSpec (getTextStrip
          (Node.elem "div" (some "rfp-ad-notice") []
            [Node.text "Total estimated cost is 1,250,000 dollars. Other info here."])) :=
  ⟨rfl, c3_estimated_amended.1 _ _ rfl⟩

/-- C4: the Link Harvester's title normalization strips apostrophes, then
replaces every space with an underscore, then replaces every occurrence of
the literal substring underscore/en-dash/underscore with a hyphen; in
particular "Request for Proposal – Roof Repair" normalizes to
"Request_for_Proposal-Roof_Repair". -/
theorem c4_title_normalization :
    (∀ s : String, normalizeTitle s = String.mk (normalizeSpecL s.toList)) ∧
    normalizeTitle "Request for Proposal – Roof Repair" = "Request_for_Proposal-Roof_Repair" := by
  have hmain : ∀ s : String, normalizeTitle s = String.mk (normalizeSpecL s.toList) := by
    intro s
    unfold normalizeTitle normalizeTitleL normalizeSpecL
    rw [pyReplace_single_del, pyReplace_single_map]
  refine ⟨hmain, ?_⟩
  rw [hmain]
  have h1 : ("Request for Proposal – Roof Repair".toList.filter (fun c => c != apos)).map
      (fun c => if c = ' ' then '_' else c) = "Request_for_Proposal_–_Roof_Repair".toList := by
    decide
  unfold normalizeSpecL
  rw [h1]
  have h2 : pyReplace ['_', '–', '_'] ['-'] "Request_for_Proposal_–_Roof_Repair".toList
      = "Request_for_Proposal-Roof_Repair".toList := by
    simp [pyReplace, isPre]
  rw [h2]
  rfl

/-- C5: the Record Extractor is total and falls back to defaults: a missing
page-header heading yields the sentinel title "Title not found", and a
missing notice section, bid-results table or awards table yields the empty
sequence for the corresponding field — never an error. -/
theorem c5_extract_data_defaults (soup : List Node) :
    (findFirstP isH1PageHeader soup = none → (extract_data soup).title = "Title not found") ∧
    (findFirstP isNoticeDiv soup = none → (extract_data soup).estimated_numbers = []) ∧
    (findFirstP isBidTable soup = none → (extract_data soup).bid_results = []) ∧
    (findFirstP isAwardTable soup = none → (extract_data soup).awards = []) := by
  refine ⟨fun h => ?_, fun h => ?_, fun h => ?_, fun h => ?_⟩ <;>
    simp [extract_data, h]

/-- Witness for C5 on a page missing all four elements, in particular the
awards table. -/
theorem c5_extract_data_defaults_witness :
    findFirstP isH1PageHeader [] = none ∧
    findFirstP isNoticeDiv [] = none ∧
    findFirstP isBidTable [] = none ∧
    findFirstP isAwardTable [] = none ∧
    (extract_data []).title = "Title not found" ∧
    (extract_data []).estimated_numbers = [] ∧
    (extract_data []).bid_results = [] ∧
    (extract_data []).awards = [] :=
  ⟨rfl, rfl, rfl, rfl,
    (c5_extract_data_defaults []).1 rfl,
    (c5_extract_data_defaults []).2.1 rfl,
    (c5_extract_data_defaults []).2.2.1 rfl,
    (c5_extract_data_defaults []).2.2.2 rfl⟩

/-- C6: for every bid-results table found by its identifier, the extractor
skips the first (header) row and, for every remaining row with at least 3
cells, emits one BidRow with cell 1 as company and cell 2 as bid amount
(both trimmed), preserving row order and skipping rows with fewer than 3
cells; in particular a header row plus two data rows with 3 cells each
yields exactly two BidRow entries in source order. -/
theorem c6_bid_rows :
    (∀ (soup : List Node) (tbl : Node),
        findFirstP isBidTable soup = some tbl →
          (extract_data soup).bid_results = bidRowsSpec tbl) ∧
    bidFromTable (Node.elem "table" (some "bidresultlist") []
      [Node.elem "tr" none [] [Node.elem "td" none [] [Node.text "Rank"],
                               Node.elem "td" none [] [Node.text "Company"],
                               Node.elem "td" none [] [Node.text "Bid Amount"]],
       Node.elem "tr" none [] [Node.elem "td" none [] [Node.text "1"],
                               Node.elem "td" none [] [Node.text " Acme Corp "],
                               Node.elem "td" none [] [Node.text "1,000"]],
       Node.elem "tr" none [] [Node.elem "td" none [] [Node.text "2"],
                               Node.elem "td" none [] [Node.text " Beta LLC "],
                               Node.elem "td" none [] [Node.text "2,000"]]])
      = [⟨"Acme Corp", "1,000"⟩, ⟨"Beta LLC", "2,000"⟩] := by
  constructor
  · intro soup tbl h
    simp only [extract_data, h]
    exact bidFromTable_eq_spec tbl
  · decide

/-- Witness for C6 on a concrete document holding a bid-results table. -/
theorem c6_bid_rows_witness :
    findFirstP isBidTable
        [Node.elem "table" (some "bidresultlist") []
          [Node.elem "tr" none [] [],
           Node.elem "tr" none [] [Node.elem "td" none [] [Node.text "1"],
                                   Node.elem "td" none [] [Node.text "Gamma Inc"],
                                   Node.elem "td" none [] [Node.text "3,000"]]]]
      = some (Node.elem "table" (some "bidresultlist") []
          [Node.elem "tr" none [] [],
           Node.elem "tr" none [] [Node.elem "td" none [] [Node.text "1"],
                                   Node.elem "td" none [] [Node.text "Gamma Inc"],
                                   Node.elem "td" none [] [Node.text "3,000"]]]) ∧
    (extract_data
        [Node.elem "table" (some "bidresultlist") []
          [Node.elem "tr" none [] [],
           Node.elem "tr" none [] [Node.elem "td" none [] [Node.text "1"],
                                   Node.elem "td" none [] [Node.text "Gamma Inc"],
                                   Node.elem "td" none [] [Node.text "3,000"]]]]).bid_results
      = bidRowsSpec (Node.elem "table" (some "bidresultlist") []
          [Node.elem "tr" none [] [],
           Node.elem "tr" none [] [Node.elem "td" none [] [Node.text "1"],
                                   Node.elem "td" none [] [Node.text "Gamma Inc"],
                                   Node.elem "td" none [] [Node.text "3,000"]]]) :=
  ⟨rfl, c6_bid_rows.1 _ _ rfl⟩

/-- C7: in the aggregation step, the CSV target replaces every field value
of every record (including the nested sequences) by its raw `str`
representation, the JSON target passes every record through unchanged, and
the JSON writer serializes the unchanged records with four-space indentation
and non-ASCII characters written literally. -/
theorem c7_aggregation_stringify :
    (∀ data_list : List PyDict,
        extract_multiple_to_df_body data_list true
          = data_list.map (fun d => d.map (fun kv => (kv.1, PyVal.str (pyStr kv.2))))) ∧
    (∀ data_list : List PyDict, extract_multiple_to_df_body data_list false = data_list) ∧
    save2json_content [[("title", PyVal.str "café"), ("note", PyVal.str "예산")]]
      = "[\n    \x7b\n        \"title\": \"café\",\n        \"note\": \"예산\"\n    \x7d\n]" := by
  refine ⟨?_, ?_, ?_⟩
  · intro data_list
    unfold extract_multiple_to_df_body
    simpa using foldl_append_map
      (fun d : PyDict => d.map (fun kv => (kv.1, PyVal.str (pyStr kv.2)))) data_list []
  · intro data_list
    unfold extract_multiple_to_df_body
    simpa using foldl_append_map
      (fun d : PyDict => d.map (fun kv => (kv.1, kv.2))) data_list []
  · rfl

/-- C8: title normalization is idempotent: normalizing an already-normalized
string changes nothing. -/
theorem c8_normalize_idempotent (s : String) :
    normalizeTitle (normalizeTitle s) = normalizeTitle s := by
  unfold normalizeTitle
  exact congrArg String.mk (normalizeTitleL_idem s.toList)

/-- C9: the configuration loader catches every failure of its body (missing
file or malformed YAML) locally and returns the null sentinel instead of
raising, and returns the parsed mapping for a readable well-formed file. -/
theorem c9_loader_catches (fs : String → FileResult) (path : String) :
    (∀ e, rawLoadYaml fs path = .error e → load_yaml_to_dict fs path = none) ∧
    (∀ m, rawLoadYaml fs path = .ok m → load_yaml_to_dict fs path = some m) := by
  constructor
  · intro e h
    simp [load_yaml_to_dict, h]
  · intro m h
    simp [load_yaml_to_dict, h]

/-- Witness for C9 on a missing file and on a well-formed file. -/
theorem c9_loader_catches_witness :
    rawLoadYaml (fun _ => FileResult.missing) "urls/bid-results-and-awards.yaml"
      = .error .ioError ∧
    load_yaml_to_dict (fun _ => FileResult.missing) "urls/bid-results-and-awards.yaml" = none ∧
    rawLoadYaml (fun _ => FileResult.ok [("A_Title", "opp/1")]) "urls/bid-results-and-awards.yaml"
      = .ok [("A_Title", "opp/1")] ∧
    load_yaml_to_dict (fun _ => FileResult.ok [("A_Title", "opp/1")])
        "urls/bid-results-and-awards.yaml" = some [("A_Title", "opp/1")] :=
  ⟨rfl, (c9_loader_catches _ _).1 .ioError rfl, rfl, (c9_loader_catches _ _).2 _ rfl⟩

/-- C10: when the configuration file is missing or malformed, the run loop
never checks the loader's null sentinel and immediately calls `.values()` on
it, so the run aborts with an `AttributeError` and never produces any
output. -/
theorem c10_run_attribute_error (fs : String → FileResult) (fetch : String → List Node)
    (yamlPath : String) (output : Option String)
    (h : fs yamlPath = .missing ∨ fs yamlPath = .malformed) :
    mainModel fs fetch yamlPath output = .error .attributeError ∧
    ∀ o, mainModel fs fetch yamlPath output ≠ .ok o := by
  have hload : load_yaml_to_dict fs yamlPath = none := by
    rcases h with h | h <;> simp [load_yaml_to_dict, rawLoadYaml, h]
  constructor
  · simp [mainModel, hload]
  · intro o
    simp [mainModel, hload]

/-- Witness for C10 on a concrete missing configuration. -/
theorem c10_run_attribute_error_witness :
    ((fun _ : String => FileResult.missing) "urls/bid-results-and-awards.yaml"
        = FileResult.missing ∨
      (fun _ : String => FileResult.missing) "urls/bid-results-and-awards.yaml"
        = FileResult.malformed) ∧
    mainModel (fun _ => FileResult.missing) (fun _ => [])
        "urls/bid-results-and-awards.yaml" none = .error .attributeError :=
  ⟨Or.inl rfl,
    (c10_run_attribute_error (fun _ => FileResult.missing) (fun _ => [])
      "urls/bid-results-and-awards.yaml" none (Or.inl rfl)).1⟩
